import Mathlib

/-!
Shallow embedding of merge_pdfs.py: a utility that merges the PDF files of a
folder into page-bounded chunks.

Modelling conventions:
* A folder is the list of its entry names (strings), in directory order.
  Paths are folder-relative names; path resolution is the identity, since all
  files of interest live in the single target folder.
* Python `re.findall(r"\d+|\D+", s)` is `tokenRuns`, producing maximal
  alternating runs of digit and non-digit characters.
* Python list comparison of natural keys is partial: comparing an `int` token
  with a `str` token raises `TypeError`.  Comparisons therefore return
  `Option Ordering` (`none` = raise), and sorting returns `none` when a raising
  comparison is encountered.  The sort is a stable insertion sort; CPython's
  stable sort produces the same ordering whenever every comparison it performs
  succeeds.
* pypdf is opaque: reading a source either raises (`ReadResult.failure`) or
  yields a document with an encryption flag and a lazily iterated page
  sequence; `iterErr = some e` means the page iterator yields all listed pages
  and then raises `e`.  Pages are an abstract type `α`.
-/

/-- A token of a natural sort key: `natural_key` maps digit runs to ints and
other runs to lowercased strings (merge_pdfs.py line 11). -/
inductive Tok where
  | num (n : Nat)
  | str (s : List Char)
deriving DecidableEq

/-- Python regex `\d` on ASCII input: the characters 0-9. -/
def isDigitChar (c : Char) : Bool :=
  c.isDigit

/-- Accumulate the current run (characters in reverse, all of digit-ness `d`)
while scanning the remaining characters. -/
def runsAux (d : Bool) (acc : List Char) : List Char → List (Bool × List Char)
  | [] => [(d, acc.reverse)]
  | c :: cs =>
    if isDigitChar c = d then runsAux d (c :: acc) cs
    else (d, acc.reverse) :: runsAux (isDigitChar c) [c] cs

/-- `re.findall(r"\d+|\D+", s)`: maximal alternating runs of digits and
non-digits, each tagged with whether it is a digit run. -/
def tokenRuns : List Char → List (Bool × List Char)
  | [] => []
  | c :: cs => runsAux (isDigitChar c) [c] cs

/-- Python `int(t)` on a run of ASCII digits. -/
def digitsToNat (cs : List Char) : Nat :=
  cs.foldl (fun a c => a * 10 + (c.toNat - 48)) 0

/-- merge_pdfs.py lines 9-11:
`[int(t) if t.isdigit() else t.lower() for t in re.findall(r"\d+|\D+", s)]`. -/
def natural_key (s : String) : List Tok :=
  (tokenRuns s.data).map fun r =>
    if r.1 then Tok.num (digitsToNat r.2) else Tok.str (r.2.map Char.toLower)

/-- Comparison of two Python ints (here: the nonnegative values of digit runs). -/
def natCmp (m n : Nat) : Ordering :=
  if m < n then Ordering.lt else if n < m then Ordering.gt else Ordering.eq

/-- Python character comparison: by code point. -/
def chCmp (a b : Char) : Ordering :=
  natCmp a.toNat b.toNat

/-- Python string comparison: lexicographic by code point. -/
def strCmp : List Char → List Char → Ordering
  | [], [] => Ordering.eq
  | [], _ :: _ => Ordering.lt
  | _ :: _, [] => Ordering.gt
  | a :: as, b :: bs =>
    match chCmp a b with
    | Ordering.eq => strCmp as bs
    | o => o

/-- Comparison of two natural-key tokens.  `none` models the `TypeError`
Python raises when ordering an `int` against a `str`. -/
def tokCmp : Tok → Tok → Option Ordering
  | Tok.num a, Tok.num b => some (natCmp a b)
  | Tok.str a, Tok.str b => some (strCmp a b)
  | _, _ => none

/-- Python list comparison of natural keys: lexicographic, elementwise;
a shorter list that is a prefix of the other compares as smaller.  `none`
models a raising comparison. -/
def keyCmp : List Tok → List Tok → Option Ordering
  | [], [] => some Ordering.eq
  | [], _ :: _ => some Ordering.lt
  | _ :: _, [] => some Ordering.gt
  | x :: xs, y :: ys =>
    match tokCmp x y with
    | none => none
    | some Ordering.eq => keyCmp xs ys
    | some o => some o

/-- Stable insertion of a name into an already-sorted list: the new name goes
before the first name whose key compares strictly greater.  `none` models a
raising comparison during the sort. -/
def insertNat (x : String) : List String → Option (List String)
  | [] => some [x]
  | y :: ys =>
    match keyCmp (natural_key x) (natural_key y) with
    | none => none
    | some Ordering.lt => some (x :: y :: ys)
    | some _ => (insertNat x ys).map fun l => y :: l

/-- Insert the names one by one, in their original order, into the sorted
accumulator. -/
def insertAll : List String → List String → Option (List String)
  | acc, [] => some acc
  | acc, x :: xs =>
    match insertNat x acc with
    | none => none
    | some acc2 => insertAll acc2 xs

/-- `sorted(names, key=natural_key)` (merge_pdfs.py line 19): a stable sort by
natural key, raising (`none`) when an int token meets a str token. -/
def sortNaturalOpt (l : List String) : Option (List String) :=
  insertAll [] l

/-- Does some suffix of the string satisfy `f`?  (The ways `*` can split the
remaining string.) -/
def suffixAny (f : List Char → Bool) : List Char → Bool
  | [] => f []
  | c :: cs => f (c :: cs) || suffixAny f cs

/-- fnmatch-style glob matching as used by `Path.glob` for flat patterns:
`*` matches any (possibly empty) character sequence, `?` any single
character, anything else matches itself.  (No character classes: none of the
patterns of this program contain them.) -/
def globMatch : List Char → List Char → Bool
  | [] => fun s => s.isEmpty
  | p :: ps =>
    let rest := globMatch ps
    fun s =>
      if p = '*' then suffixAny rest s
      else
        match s with
        | [] => false
        | c :: cs => if p = '?' then rest cs else (p = c) && rest cs

/-- `PurePath.stem` for a file name (CPython: `i = name.rfind('.')`; the stem
is `name[:i]` when `0 < i < len(name) - 1`, else the whole name). -/
def pathStem (name : String) : String :=
  let cs := name.data
  let n := cs.length
  match cs.reverse.findIdx? (fun c => c = '.') with
  | none => name
  | some j =>
    let i := n - 1 - j
    if 0 < i ∧ i < n - 1 then String.mk (cs.take i) else name

/-- merge_pdfs.py lines 13-27: glob the folder, sort the matches by natural
key, and drop the output base name and every folder entry matching
`"<stem> - Part *.pdf"` (prior chunk outputs).  `none` models the sort
raising `TypeError`. -/
def gather_sources (folder : List String) (pattern : String) (outName : String) :
    Option (List String) :=
  match sortNaturalOpt (folder.filter fun n => globMatch pattern.data n.data) with
  | none => none
  | some files =>
    let stem := pathStem outName
    let excludes :=
      outName :: folder.filter fun n => globMatch (stem ++ " - Part *.pdf").data n.data
    some (files.filter fun f => !(excludes.contains f))

/-- The outcome of `PdfReader(str(f))` plus page iteration, as the merge loop
observes it: either the constructor raises, or it yields a document with an
encryption flag and pages.  `iterErr = some e` means the (lazy) page iterator
yields all of `pages` and then raises `e` mid-document. -/
inductive ReadResult (α : Type) where
  | failure (err : String)
  | doc (encrypted : Bool) (pages : List α) (iterErr : Option String)
deriving DecidableEq

/-- A source file: its name and what reading it produces. -/
structure Source (α : Type) where
  name : String
  read : ReadResult α
deriving DecidableEq

/-- merge_pdfs.py line 34: the chunk file name `"<stem> - Part <i>.pdf"`. -/
def chunkName (stem : String) (i : Nat) : String :=
  stem ++ " - Part " ++ toString i ++ ".pdf"

/-- The state carried across the merge loop (merge_pdfs.py lines 59-63),
together with the files written to disk so far and the two output streams. -/
structure LoopState (α : Type) where
  writer : List α
  pagesInWriter : Nat
  addedFiles : Nat
  partIdx : Nat
  written : List (String × List α)
  outLog : List String
  errLog : List String
deriving DecidableEq

/-- merge_pdfs.py lines 59-63: empty writer, zero counters, part index 1. -/
def initState (α : Type) : LoopState α :=
  ⟨[], 0, 0, 1, [], [], []⟩

/-- The observable outcome of a run: chunk files on disk (path and page
content, in the order written), the stdout and stderr lines, and the process
exit code. -/
structure RunResult (α : Type) where
  written : List (String × List α)
  stdoutLines : List String
  stderrLines : List String
  exitCode : Nat
deriving DecidableEq

/-- merge_pdfs.py lines 77-85: append one page to the writer, bump the
counter, and flush a chunk as soon as the counter reaches `maxPages`. -/
def addPage (maxPages : Nat) (stem : String) (st : LoopState α) (p : α) : LoopState α :=
  let w := st.writer ++ [p]
  let n := st.pagesInWriter + 1
  if maxPages ≤ n then
    { st with writer := [], pagesInWriter := 0,
              written := st.written ++ [(chunkName stem st.partIdx, w)],
              partIdx := st.partIdx + 1 }
  else
    { st with writer := w, pagesInWriter := n }

/-- merge_pdfs.py lines 65-90: process one source.  `Sum.inr` is the early
`sys.exit(2)` on an encrypted source without the skip flag; `Sum.inl` is the
state in which the loop continues.  Note line 70 prints the skip-encrypted
diagnostic without `file=sys.stderr`, so it lands on stdout. -/
def processSource (skipEnc : Bool) (maxPages : Nat) (stem : String)
    (st : LoopState α) (src : Source α) : LoopState α ⊕ RunResult α :=
  match src.read with
  | ReadResult.failure e =>
    Sum.inl { st with errLog := st.errLog ++ ["Skipping " ++ src.name ++ ": " ++ e] }
  | ReadResult.doc enc pages iterErr =>
    if enc then
      if skipEnc then
        Sum.inl { st with outLog := st.outLog ++ ["Skipping encrypted: " ++ src.name] }
      else
        Sum.inr { written := st.written, stdoutLines := st.outLog,
                  stderrLines := st.errLog ++
                    ["Encrypted: " ++ src.name ++ " (use --skip-encrypted to ignore)"],
                  exitCode := 2 }
    else
      let st1 := pages.foldl (addPage maxPages stem) st
      match iterErr with
      | some e =>
        Sum.inl { st1 with errLog := st1.errLog ++ ["Skipping " ++ src.name ++ ": " ++ e] }
      | none => Sum.inl { st1 with addedFiles := st1.addedFiles + 1 }

/-- The `for f in sources` loop of merge_pdfs.py: thread the state through the
sources, stopping only at the encrypted-abort exit. -/
def runLoop (skipEnc : Bool) (maxPages : Nat) (stem : String) :
    LoopState α → List (Source α) → LoopState α ⊕ RunResult α
  | st, [] => Sum.inl st
  | st, src :: rest =>
    match processSource skipEnc maxPages stem st src with
    | Sum.inl st2 => runLoop skipEnc maxPages stem st2 rest
    | Sum.inr r => Sum.inr r

/-- merge_pdfs.py lines 92-107: flush the remainder chunk if the writer holds
pages, then the `added_files == 0` exit (3), the empty-`written_paths` exit
(4), and the success report on stdout. -/
def finishRun (stem : String) (st : LoopState α) : RunResult α :=
  let st1 :=
    if 0 < st.pagesInWriter then
      { st with written := st.written ++ [(chunkName stem st.partIdx, st.writer)] }
    else st
  if st1.addedFiles = 0 then
    { written := st1.written, stdoutLines := st1.outLog,
      stderrLines := st1.errLog ++ ["Nothing merged."], exitCode := 3 }
  else if st1.written.isEmpty then
    { written := st1.written, stdoutLines := st1.outLog,
      stderrLines := st1.errLog ++ ["No output written (unexpected)."], exitCode := 4 }
  else
    { written := st1.written,
      stdoutLines := st1.outLog ++
        ["Merged " ++ toString st1.addedFiles ++ " file(s) into " ++
          toString st1.written.length ++ " part(s):"] ++
        st1.written.map (fun c => "   " ++ c.1),
      stderrLines := st1.errLog, exitCode := 0 }

/-- merge_pdfs.py line 52: `max(1, int(args.max_pages))`. -/
def effMaxPages (m : Int) : Nat :=
  (max 1 m).toNat

/-- merge_pdfs.py lines 54-107 after source collection: the empty-source exit
(1), then the merge loop over the collected sources and the post-loop
checks.  `stem` is the stem of the output base; `m` the raw `--max-pages`
argument. -/
def runMerge (skipEnc : Bool) (m : Int) (stem : String) (sources : List (Source α)) :
    RunResult α :=
  match sources with
  | [] => { written := [], stdoutLines := [], stderrLines := ["No PDFs found."], exitCode := 1 }
  | src :: rest =>
    match runLoop skipEnc (effMaxPages m) stem (initState α) (src :: rest) with
    | Sum.inl st => finishRun stem st
    | Sum.inr r => r

/-! Lemmas about the natural-key comparison. -/

theorem natCmp_swap (m n : Nat) : natCmp n m = (natCmp m n).swap := by
  unfold natCmp
  by_cases h1 : m < n
  · simp [h1, Nat.lt_asymm h1, Ordering.swap]
  · by_cases h2 : n < m
    · simp [h1, h2, Ordering.swap]
    · simp [h1, h2, Ordering.swap]

theorem chCmp_swap (a b : Char) : chCmp b a = (chCmp a b).swap :=
  natCmp_swap _ _

theorem strCmp_swap (s t : List Char) : strCmp t s = (strCmp s t).swap := by
  induction s generalizing t with
  | nil => cases t <;> rfl
  | cons a as ih =>
    cases t with
    | nil => rfl
    | cons b bs =>
      have hc : chCmp b a = (chCmp a b).swap := chCmp_swap a b
      simp only [strCmp]
      cases h : chCmp a b <;> rw [hc, h] <;> simp [Ordering.swap]
      exact ih bs

theorem tokCmp_swap (x y : Tok) : tokCmp y x = (tokCmp x y).map Ordering.swap := by
  cases x with
  | num a =>
    cases y with
    | num b =>
      have h : natCmp b a = (natCmp a b).swap := natCmp_swap a b
      simp [tokCmp, h]
    | str b => rfl
  | str a =>
    cases y with
    | num b => rfl
    | str b =>
      have h : strCmp b a = (strCmp a b).swap := strCmp_swap a b
      simp [tokCmp, h]

theorem keyCmp_swap (xs ys : List Tok) : keyCmp ys xs = (keyCmp xs ys).map Ordering.swap := by
  induction xs generalizing ys with
  | nil => cases ys <;> rfl
  | cons x xs ih =>
    cases ys with
    | nil => rfl
    | cons y ys =>
      have ht : tokCmp y x = (tokCmp x y).map Ordering.swap := tokCmp_swap x y
      simp only [keyCmp]
      cases h : tokCmp x y with
      | none => rw [ht, h]; rfl
      | some o =>
        rw [ht, h]
        cases o with
        | lt => rfl
        | gt => rfl
        | eq => simpa using ih ys

theorem keyCmp_lt_gt {xs ys : List Tok} (h : keyCmp xs ys = some Ordering.lt) :
    keyCmp ys xs = some Ordering.gt := by
  rw [keyCmp_swap, h]; rfl

/-! Membership lemmas for the insertion sort. -/

theorem mem_of_insertNat (x : String) :
    ∀ (l r : List String), insertNat x l = some r → ∀ y ∈ r, y = x ∨ y ∈ l := by
  intro l
  induction l with
  | nil =>
    intro r h y hy
    simp only [insertNat, Option.some.injEq] at h
    subst h
    simp at hy
    exact Or.inl hy
  | cons z zs ih =>
    intro r h y hy
    simp only [insertNat] at h
    cases hk : keyCmp (natural_key x) (natural_key z) with
    | none => rw [hk] at h; simp at h
    | some o =>
      rw [hk] at h
      cases o with
      | lt =>
        simp only [Option.some.injEq] at h
        subst h
        simp at hy
        rcases hy with hy | hy | hy
        · exact Or.inl hy
        · exact Or.inr (by simp [hy])
        · exact Or.inr (by simp [hy])
      | eq =>
        cases hi : insertNat x zs with
        | none => rw [hi] at h; simp at h
        | some r2 =>
          rw [hi] at h
          have h3 : z :: r2 = r := by simpa using h
          subst h3
          simp at hy
          rcases hy with hy | hy
          · exact Or.inr (by simp [hy])
          · rcases ih r2 hi y hy with h2 | h2
            · exact Or.inl h2
            · exact Or.inr (by simp [h2])
      | gt =>
        cases hi : insertNat x zs with
        | none => rw [hi] at h; simp at h
        | some r2 =>
          rw [hi] at h
          have h3 : z :: r2 = r := by simpa using h
          subst h3
          simp at hy
          rcases hy with hy | hy
          · exact Or.inr (by simp [hy])
          · rcases ih r2 hi y hy with h2 | h2
            · exact Or.inl h2
            · exact Or.inr (by simp [h2])

theorem mem_of_insertAll :
    ∀ (l acc r : List String), insertAll acc l = some r → ∀ y ∈ r, y ∈ acc ∨ y ∈ l := by
  intro l
  induction l with
  | nil =>
    intro acc r h y hy
    simp only [insertAll, Option.some.injEq] at h
    subst h
    exact Or.inl hy
  | cons x xs ih =>
    intro acc r h y hy
    simp only [insertAll] at h
    cases hi : insertNat x acc with
    | none => rw [hi] at h; simp at h
    | some acc2 =>
      rw [hi] at h
      rcases ih acc2 r h y hy with h2 | h2
      · rcases mem_of_insertNat x acc acc2 hi y h2 with h3 | h3
        · exact Or.inr (by simp [h3])
        · exact Or.inl h3
      · exact Or.inr (by simp [h2])

theorem mem_of_sortNaturalOpt {l r : List String} (h : sortNaturalOpt l = some r) :
    ∀ y ∈ r, y ∈ l := by
  intro y hy
  rcases mem_of_insertAll l [] r h y hy with h2 | h2
  · simp at h2
  · exact h2

/-- C2: the collector's sort order compares names by natural key (digit runs
as integers, non-digit runs case-insensitively as text): whenever the key of
`f` compares strictly below the key of `g`, sorting places `f` before `g` in
either input order; consequently the collector yields `f1, f2, f10` in that
order (never `f1, f10, f2`), `file2.pdf` sorts before `file10.pdf` because
`2 < 10` as integers, and `B.pdf` sorts after `a.pdf` because text runs are
lowercased before comparison. -/
theorem collector_sorts_by_natural_key :
    (∀ f g : String, keyCmp (natural_key f) (natural_key g) = some Ordering.lt →
      sortNaturalOpt [f, g] = some [f, g] ∧ sortNaturalOpt [g, f] = some [f, g])
    ∧ gather_sources ["f10.pdf", "f1.pdf", "f2.pdf"] "*.pdf" "merged.pdf" =
        some ["f1.pdf", "f2.pdf", "f10.pdf"]
    ∧ natural_key "file10.pdf" = [Tok.str ("file".data), Tok.num 10, Tok.str (".pdf".data)]
    ∧ keyCmp (natural_key "file2.pdf") (natural_key "file10.pdf") = some Ordering.lt
    ∧ keyCmp (natural_key "B.pdf") (natural_key "a.pdf") = some Ordering.gt := by
  refine ⟨?_, by decide, by decide, by decide, by decide⟩
  intro f g h
  have h2 : keyCmp (natural_key g) (natural_key f) = some Ordering.gt := keyCmp_lt_gt h
  exact ⟨by simp [sortNaturalOpt, insertAll, insertNat, h2],
         by simp [sortNaturalOpt, insertAll, insertNat, h]⟩

/-- Witness for C2: instantiated at the pair `f1.pdf`, `f10.pdf`. -/
theorem collector_sorts_by_natural_key_witness :
    keyCmp (natural_key "f1.pdf") (natural_key "f10.pdf") = some Ordering.lt ∧
    sortNaturalOpt ["f1.pdf", "f10.pdf"] = some ["f1.pdf", "f10.pdf"] ∧
    sortNaturalOpt ["f10.pdf", "f1.pdf"] = some ["f1.pdf", "f10.pdf"] :=
  ⟨by decide,
   (collector_sorts_by_natural_key.1 "f1.pdf" "f10.pdf" (by decide)).1,
   (collector_sorts_by_natural_key.1 "f1.pdf" "f10.pdf" (by decide)).2⟩

/-- C3: whenever the collector returns a source list, that list contains
neither the output base name nor any name matching `"<stem> - Part *.pdf"`:
a prior run's outputs are never re-ingested. -/
theorem gather_sources_excludes_prior_outputs
    (folder : List String) (pattern outName : String) (res : List String)
    (h : gather_sources folder pattern outName = some res) :
    ∀ f ∈ res, f ≠ outName ∧
      globMatch ((pathStem outName ++ " - Part *.pdf").data) f.data = false := by
  intro f hf
  unfold gather_sources at h
  cases hs : sortNaturalOpt (folder.filter fun n => globMatch pattern.data n.data) with
  | none => rw [hs] at h; exact absurd h (by simp)
  | some files =>
    rw [hs] at h
    simp only [Option.some.injEq] at h
    subst h
    rw [List.mem_filter] at hf
    obtain ⟨hfile, hkeep⟩ := hf
    simp only [List.elem_eq_mem, Bool.not_eq_eq_eq_not, Bool.not_true,
      decide_eq_false_iff_not] at hkeep
    have hnotmem : f ∉ outName :: folder.filter
        (fun n => globMatch ((pathStem outName ++ " - Part *.pdf").data) n.data) := hkeep
    have hmemfolder : f ∈ folder :=
      (List.mem_filter.mp (mem_of_sortNaturalOpt hs f hfile)).1
    refine ⟨?_, ?_⟩
    · intro heq
      exact hnotmem (by rw [heq]; exact List.mem_cons_self _ _)
    · cases hg : globMatch ((pathStem outName ++ " - Part *.pdf").data) f.data with
      | false => rfl
      | true =>
        exact absurd (List.mem_cons_of_mem _ (List.mem_filter.mpr ⟨hmemfolder, hg⟩)) hnotmem

/-- Witness for C3: a folder holding a prior run's `merged.pdf` and
`merged - Part 2.pdf`; neither survives collection. -/
theorem gather_sources_excludes_prior_outputs_witness :
    gather_sources ["a.pdf", "merged.pdf", "merged - Part 2.pdf"] "*.pdf" "merged.pdf" =
      some ["a.pdf"] ∧
    ("a.pdf" ≠ "merged.pdf" ∧
      globMatch ((pathStem "merged.pdf" ++ " - Part *.pdf").data) ("a.pdf".data) = false) :=
  ⟨by decide,
   gather_sources_excludes_prior_outputs
     ["a.pdf", "merged.pdf", "merged - Part 2.pdf"] "*.pdf" "merged.pdf"
     ["a.pdf"] (by decide) "a.pdf" (by decide)⟩

/-- C10: the natural-key order is not total: `1.pdf` tokenizes to a leading
int token and `a.pdf` to a leading str token, their comparison raises
(`none`), and sorting a folder holding both raises instead of ordering it —
so source collection fails on such a folder. -/
theorem natural_sort_raises_on_mixed_tokens :
    keyCmp (natural_key "1.pdf") (natural_key "a.pdf") = none ∧
    sortNaturalOpt ["a.pdf", "1.pdf"] = none ∧
    gather_sources ["a.pdf", "1.pdf"] "*.pdf" "merged.pdf" = none := by
  decide

/-! Lemmas about the merge loop. -/

theorem runMerge_cons_eq {α : Type} (se : Bool) (m : Int) (stem : String)
    (sources : List (Source α)) (hne : sources ≠ []) :
    runMerge se m stem sources =
      match runLoop se (effMaxPages m) stem (initState α) sources with
      | Sum.inl st => finishRun stem st
      | Sum.inr r => r := by
  cases sources with
  | nil => exact absurd rfl hne
  | cons s rest => rfl

theorem runLoop_append {α : Type} (se : Bool) (M : Nat) (stem : String)
    (st : LoopState α) (l1 l2 : List (Source α)) :
    runLoop se M stem st (l1 ++ l2) =
      match runLoop se M stem st l1 with
      | Sum.inl st2 => runLoop se M stem st2 l2
      | Sum.inr r => Sum.inr r := by
  induction l1 generalizing st with
  | nil => rfl
  | cons s rest ih =>
    simp only [List.cons_append, runLoop]
    cases processSource se M stem st s with
    | inl st2 => exact ih st2
    | inr r => rfl

theorem runLoop_all_failures {α : Type} (se : Bool) (M : Nat) (stem : String) :
    ∀ (l : List (Source α)) (st : LoopState α),
      (∀ src ∈ l, ∃ e, src.read = ReadResult.failure e) →
      ∃ log, runLoop se M stem st l = Sum.inl { st with errLog := st.errLog ++ log } := by
  intro l
  induction l with
  | nil =>
    intro st _
    exact ⟨[], by simp [runLoop]⟩
  | cons s rest ih =>
    intro st h
    obtain ⟨e, he⟩ := h s (List.mem_cons_self s rest)
    obtain ⟨log, hl⟩ :=
      ih { st with errLog := st.errLog ++ ["Skipping " ++ s.name ++ ": " ++ e] }
        (fun src hs => h src (List.mem_cons_of_mem s hs))
    refine ⟨("Skipping " ++ s.name ++ ": " ++ e) :: log, ?_⟩
    simp only [runLoop, processSource, he]
    rw [hl]
    simp

/-- The page counter tracks the number of pages held by the writer. -/
def wSync (st : LoopState α) : Prop :=
  st.pagesInWriter = st.writer.length

theorem addPage_wSync {α : Type} (M : Nat) (stem : String) (st : LoopState α) (p : α)
    (h : wSync st) : wSync (addPage M stem st p) := by
  unfold wSync at h
  unfold addPage wSync
  rw [h]
  by_cases hf : M ≤ st.writer.length + 1 <;> simp [hf]

theorem foldl_addPage_wSync {α : Type} (M : Nat) (stem : String) :
    ∀ (pgs : List α) (st : LoopState α), wSync st →
      wSync (pgs.foldl (addPage M stem) st) := by
  intro pgs
  induction pgs with
  | nil => intro st h; exact h
  | cons p rest ih => intro st h; exact ih _ (addPage_wSync M stem st p h)

theorem processSource_wSync {α : Type} (se : Bool) (M : Nat) (stem : String)
    (st st2 : LoopState α) (src : Source α) (h : wSync st)
    (hp : processSource se M stem st src = Sum.inl st2) : wSync st2 := by
  unfold processSource at hp
  cases hr : src.read with
  | failure e =>
    rw [hr] at hp
    simp only [Sum.inl.injEq] at hp
    subst hp
    exact h
  | doc enc pages iterErr =>
    rw [hr] at hp
    cases enc with
    | true =>
      cases se with
      | true =>
        simp only [if_true, Sum.inl.injEq] at hp
        subst hp
        exact h
      | false => simp at hp
    | false =>
      have hfold := foldl_addPage_wSync M stem pages st h
      cases iterErr with
      | some e =>
        simp only [Bool.false_eq_true, if_false, Sum.inl.injEq] at hp
        subst hp
        exact hfold
      | none =>
        simp only [Bool.false_eq_true, if_false, Sum.inl.injEq] at hp
        subst hp
        exact hfold

theorem runLoop_wSync {α : Type} (se : Bool) (M : Nat) (stem : String) :
    ∀ (l : List (Source α)) (st st2 : LoopState α), wSync st →
      runLoop se M stem st l = Sum.inl st2 → wSync st2 := by
  intro l
  induction l with
  | nil =>
    intro st st2 h hl
    simp only [runLoop, Sum.inl.injEq] at hl
    subst hl
    exact h
  | cons s rest ih =>
    intro st st2 h hl
    simp only [runLoop] at hl
    cases hp : processSource se M stem st s with
    | inl st3 =>
      rw [hp] at hl
      exact ih st3 st2 (processSource_wSync se M stem st st3 s h hp) hl
    | inr r => rw [hp] at hl; simp at hl

/-- At least one chunk has been flushed, or the writer holds pages. -/
def hasOut (st : LoopState α) : Prop :=
  st.written ≠ [] ∨ st.writer ≠ []

theorem addPage_hasOut {α : Type} (M : Nat) (stem : String) (st : LoopState α) (p : α) :
    hasOut (addPage M stem st p) := by
  unfold addPage hasOut
  by_cases hf : M ≤ st.pagesInWriter + 1 <;> simp [hf]

theorem addPage_written_mono {α : Type} (M : Nat) (stem : String) (st : LoopState α) (p : α)
    (h : st.written ≠ []) : (addPage M stem st p).written ≠ [] := by
  unfold addPage
  by_cases hf : M ≤ st.pagesInWriter + 1 <;> simp [hf, h]

theorem foldl_addPage_hasOut {α : Type} (M : Nat) (stem : String) :
    ∀ (pgs : List α) (st : LoopState α), hasOut st →
      hasOut (pgs.foldl (addPage M stem) st) := by
  intro pgs
  induction pgs with
  | nil => intro st h; exact h
  | cons p rest ih =>
    intro st _
    cases rest with
    | nil => exact addPage_hasOut M stem st p
    | cons q qs => exact ih _ (addPage_hasOut M stem st p)

theorem foldl_addPage_hasOut_of_ne {α : Type} (M : Nat) (stem : String)
    (pgs : List α) (st : LoopState α) (h : pgs ≠ []) :
    hasOut (pgs.foldl (addPage M stem) st) := by
  cases pgs with
  | nil => exact absurd rfl h
  | cons p rest => exact foldl_addPage_hasOut M stem rest _ (addPage_hasOut M stem st p)

theorem processSource_hasOut {α : Type} (se : Bool) (M : Nat) (stem : String)
    (st st2 : LoopState α) (src : Source α) (h : hasOut st)
    (hp : processSource se M stem st src = Sum.inl st2) : hasOut st2 := by
  unfold processSource at hp
  cases hr : src.read with
  | failure e =>
    rw [hr] at hp
    simp only [Sum.inl.injEq] at hp
    subst hp
    exact h
  | doc enc pages iterErr =>
    rw [hr] at hp
    cases enc with
    | true =>
      cases se with
      | true =>
        simp only [if_true, Sum.inl.injEq] at hp
        subst hp
        exact h
      | false => simp at hp
    | false =>
      have hfold := foldl_addPage_hasOut M stem pages st h
      cases iterErr with
      | some e =>
        simp only [Bool.false_eq_true, if_false, Sum.inl.injEq] at hp
        subst hp
        exact hfold
      | none =>
        simp only [Bool.false_eq_true, if_false, Sum.inl.injEq] at hp
        subst hp
        exact hfold

theorem runLoop_hasOut {α : Type} (se : Bool) (M : Nat) (stem : String) :
    ∀ (l : List (Source α)) (st st2 : LoopState α), hasOut st →
      runLoop se M stem st l = Sum.inl st2 → hasOut st2 := by
  intro l
  induction l with
  | nil =>
    intro st st2 h hl
    simp only [runLoop, Sum.inl.injEq] at hl
    subst hl
    exact h
  | cons s rest ih =>
    intro st st2 h hl
    simp only [runLoop] at hl
    cases hp : processSource se M stem st s with
    | inl st3 =>
      rw [hp] at hl
      exact ih st3 st2 (processSource_hasOut se M stem st st3 s h hp) hl
    | inr r => rw [hp] at hl; simp at hl

theorem foldl_addPage_added {α : Type} (M : Nat) (stem : String) :
    ∀ (pgs : List α) (st : LoopState α),
      (pgs.foldl (addPage M stem) st).addedFiles = st.addedFiles := by
  intro pgs
  induction pgs with
  | nil => intro st; rfl
  | cons p rest ih =>
    intro st
    rw [List.foldl_cons, ih]
    unfold addPage
    by_cases hf : M ≤ st.pagesInWriter + 1 <;> simp [hf]

theorem processSource_added_mono {α : Type} (se : Bool) (M : Nat) (stem : String)
    (st st2 : LoopState α) (src : Source α)
    (hp : processSource se M stem st src = Sum.inl st2) :
    st.addedFiles ≤ st2.addedFiles := by
  unfold processSource at hp
  cases hr : src.read with
  | failure e =>
    rw [hr] at hp
    simp only [Sum.inl.injEq] at hp
    subst hp
    exact Nat.le_refl _
  | doc enc pages iterErr =>
    rw [hr] at hp
    cases enc with
    | true =>
      cases se with
      | true =>
        simp only [if_true, Sum.inl.injEq] at hp
        subst hp
        exact Nat.le_refl _
      | false => simp at hp
    | false =>
      cases iterErr with
      | some e =>
        simp only [Bool.false_eq_true, if_false, Sum.inl.injEq] at hp
        subst hp
        simp [foldl_addPage_added]
      | none =>
        simp only [Bool.false_eq_true, if_false, Sum.inl.injEq] at hp
        subst hp
        simp only [foldl_addPage_added]
        exact Nat.le_succ _

theorem runLoop_added_mono {α : Type} (se : Bool) (M : Nat) (stem : String) :
    ∀ (l : List (Source α)) (st st2 : LoopState α),
      runLoop se M stem st l = Sum.inl st2 → st.addedFiles ≤ st2.addedFiles := by
  intro l
  induction l with
  | nil =>
    intro st st2 hl
    simp only [runLoop, Sum.inl.injEq] at hl
    subst hl
    exact Nat.le_refl _
  | cons s rest ih =>
    intro st st2 hl
    simp only [runLoop] at hl
    cases hp : processSource se M stem st s with
    | inl st3 =>
      rw [hp] at hl
      exact Nat.le_trans (processSource_added_mono se M stem st st3 s hp) (ih st3 st2 hl)
    | inr r => rw [hp] at hl; simp at hl

theorem processSource_inr_exit2 {α : Type} (se : Bool) (M : Nat) (stem : String)
    (st : LoopState α) (src : Source α) (r : RunResult α)
    (hp : processSource se M stem st src = Sum.inr r) : r.exitCode = 2 := by
  unfold processSource at hp
  cases hr : src.read with
  | failure e => rw [hr] at hp; simp at hp
  | doc enc pages iterErr =>
    rw [hr] at hp
    cases enc with
    | true =>
      cases se with
      | true => simp at hp
      | false =>
        simp only [if_true, Bool.false_eq_true, if_false, Sum.inr.injEq] at hp
        subst hp
        rfl
    | false =>
      cases iterErr with
      | some e => simp only [Bool.false_eq_true, if_false] at hp; simp at hp
      | none => simp only [Bool.false_eq_true, if_false] at hp; simp at hp

theorem runLoop_inr_exit2 {α : Type} (se : Bool) (M : Nat) (stem : String) :
    ∀ (l : List (Source α)) (st : LoopState α) (r : RunResult α),
      runLoop se M stem st l = Sum.inr r → r.exitCode = 2 := by
  intro l
  induction l with
  | nil => intro st r hl; simp [runLoop] at hl
  | cons s rest ih =>
    intro st r hl
    simp only [runLoop] at hl
    cases hp : processSource se M stem st s with
    | inl st3 => rw [hp] at hl; exact ih st3 r hl
    | inr r2 =>
      rw [hp] at hl
      simp only [Sum.inr.injEq] at hl
      subst hl
      exact processSource_inr_exit2 se M stem st s r2 hp

theorem foldl_addPage_preserve {α : Type} (P : LoopState α → Prop) (M : Nat) (stem : String)
    (hadd : ∀ (st : LoopState α) (p : α), P st → P (addPage M stem st p)) :
    ∀ (pgs : List α) (st : LoopState α), P st → P (pgs.foldl (addPage M stem) st) := by
  intro pgs
  induction pgs with
  | nil => intro st h; exact h
  | cons p rest ih => intro st h; exact ih _ (hadd st p h)

theorem processSource_preserve {α : Type} (P : LoopState α → Prop) (se : Bool) (M : Nat)
    (stem : String)
    (hadd : ∀ (st : LoopState α) (p : α), P st → P (addPage M stem st p))
    (hupd : ∀ (st : LoopState α) (a : Nat) (ol el : List String),
      P st → P { st with addedFiles := a, outLog := ol, errLog := el }) :
    ∀ (st st2 : LoopState α) (src : Source α), P st →
      processSource se M stem st src = Sum.inl st2 → P st2 := by
  intro st st2 src h hp
  unfold processSource at hp
  cases hr : src.read with
  | failure e =>
    rw [hr] at hp
    simp only [Sum.inl.injEq] at hp
    subst hp
    exact hupd st _ _ _ h
  | doc enc pages iterErr =>
    rw [hr] at hp
    cases enc with
    | true =>
      cases se with
      | true =>
        simp only [if_true, Sum.inl.injEq] at hp
        subst hp
        exact hupd st _ _ _ h
      | false => simp at hp
    | false =>
      have hfold := foldl_addPage_preserve P M stem hadd pages st h
      cases iterErr with
      | some e =>
        simp only [Bool.false_eq_true, if_false, Sum.inl.injEq] at hp
        subst hp
        exact hupd _ _ _ _ hfold
      | none =>
        simp only [Bool.false_eq_true, if_false, Sum.inl.injEq] at hp
        subst hp
        exact hupd _ _ _ _ hfold

theorem runLoop_preserve {α : Type} (P : LoopState α → Prop) (se : Bool) (M : Nat)
    (stem : String)
    (hadd : ∀ (st : LoopState α) (p : α), P st → P (addPage M stem st p))
    (hupd : ∀ (st : LoopState α) (a : Nat) (ol el : List String),
      P st → P { st with addedFiles := a, outLog := ol, errLog := el }) :
    ∀ (l : List (Source α)) (st st2 : LoopState α), P st →
      runLoop se M stem st l = Sum.inl st2 → P st2 := by
  intro l
  induction l with
  | nil =>
    intro st st2 h hl
    simp only [runLoop, Sum.inl.injEq] at hl
    subst hl
    exact h
  | cons s rest ih =>
    intro st st2 h hl
    simp only [runLoop] at hl
    cases hp : processSource se M stem st s with
    | inl st3 =>
      rw [hp] at hl
      exact ih st3 st2 (processSource_preserve P se M stem hadd hupd st st3 s h hp) hl
    | inr r => rw [hp] at hl; simp at hl

/-- The shape invariant of the merge loop: the counter tracks the writer, the
writer never reaches the cap between page appends, part indices count the
written chunks from 1, every flushed chunk holds exactly `M` pages, and the
chunk file names are `"<stem> - Part 1.pdf"`, `"<stem> - Part 2.pdf"`, … in
the order written. -/
def chunkInv (M : Nat) (stem : String) (st : LoopState α) : Prop :=
  st.pagesInWriter = st.writer.length ∧
  st.writer.length < M ∧
  st.partIdx = st.written.length + 1 ∧
  (∀ c ∈ st.written, c.2.length = M) ∧
  st.written.map Prod.fst = (List.range st.written.length).map (fun i => chunkName stem (i + 1))

theorem chunkInv_init {α : Type} (M : Nat) (stem : String) (hM : 1 ≤ M) :
    chunkInv M stem (initState α) :=
  ⟨rfl, by simpa using hM, rfl, by simp [initState], by simp [initState]⟩

theorem addPage_chunkInv {α : Type} (M : Nat) (stem : String) (hM : 1 ≤ M)
    (st : LoopState α) (p : α) (h : chunkInv M stem st) :
    chunkInv M stem (addPage M stem st p) := by
  obtain ⟨h1, h2, h3, h4, h5⟩ := h
  unfold addPage
  by_cases hf : M ≤ st.pagesInWriter + 1
  · rw [if_pos hf]
    have hlen : (st.writer ++ [p]).length = M := by
      simp only [List.length_append, List.length_cons, List.length_nil]
      omega
    refine ⟨rfl, by simpa using hM, ?_, ?_, ?_⟩
    · simp [h3]
    · intro c hc
      simp only [List.mem_append, List.mem_singleton] at hc
      rcases hc with hc | hc
      · exact h4 c hc
      · rw [hc]; exact hlen
    · simp only [List.map_append, List.length_append, List.map_cons, List.map_nil,
        List.length_cons, List.length_nil, List.range_succ]
      rw [h5, h3]
  · rw [if_neg hf]
    refine ⟨by simp [h1], ?_, h3, h4, h5⟩
    simp only [List.length_append, List.length_cons, List.length_nil]
    omega

theorem runLoop_chunkInv {α : Type} (se : Bool) (M : Nat) (stem : String) (hM : 1 ≤ M)
    (l : List (Source α)) (st st2 : LoopState α) (h : chunkInv M stem st)
    (hl : runLoop se M stem st l = Sum.inl st2) : chunkInv M stem st2 :=
  runLoop_preserve (chunkInv M stem) se M stem
    (fun st p hp => addPage_chunkInv M stem hM st p hp)
    (fun _ _ _ _ hp => hp)
    l st st2 h hl

theorem exists_four {α : Type} {l : List α} (h : l.length = 4) :
    ∃ a b c d, l = [a, b, c, d] := by
  cases l with
  | nil => exact absurd h (by simp)
  | cons a l =>
    cases l with
    | nil => exact absurd h (by simp)
    | cons b l =>
      cases l with
      | nil => exact absurd h (by simp)
      | cons c l =>
        cases l with
        | nil => exact absurd h (by simp)
        | cons d l =>
          cases l with
          | nil => exact ⟨a, b, c, d, rfl⟩
          | cons e l =>
            exfalso
            simp only [List.length_cons] at h
            omega

/-- C1: merging two readable sources with page counts 3 and 4 under
`max_pages = 5` writes exactly two chunks, of 5 and 2 pages: the flush fires
the moment the per-chunk counter reaches the cap, so the second document is
split across `Part 1` and `Part 2`. -/
theorem merge_3_4_cap5_yields_5_2 {α : Type} (se : Bool) (stem n1 n2 : String)
    (p1 p2 : List α) (h1 : p1.length = 3) (h2 : p2.length = 4) :
    (runMerge se 5 stem
        [⟨n1, ReadResult.doc false p1 none⟩, ⟨n2, ReadResult.doc false p2 none⟩]).written =
      [(chunkName stem 1, p1 ++ p2.take 2), (chunkName stem 2, p2.drop 2)] ∧
    ((runMerge se 5 stem
        [⟨n1, ReadResult.doc false p1 none⟩, ⟨n2, ReadResult.doc false p2 none⟩]).written.map
      (fun c => c.2.length)) = [5, 2] := by
  obtain ⟨a, b, c, rfl⟩ := List.length_eq_three.mp h1
  obtain ⟨d, e, f, g, rfl⟩ := exists_four h2
  exact ⟨rfl, rfl⟩

/-- Witness for C1 at concrete pages. -/
theorem merge_3_4_cap5_yields_5_2_witness :
    (runMerge false 5 "merged"
        [⟨"a.pdf", ReadResult.doc false [1, 2, 3] none⟩,
         ⟨"b.pdf", ReadResult.doc false [4, 5, 6, 7] none⟩] : RunResult Nat).written =
      [(chunkName "merged" 1, [1, 2, 3] ++ List.take 2 [4, 5, 6, 7]),
       (chunkName "merged" 2, List.drop 2 [4, 5, 6, 7])] :=
  (merge_3_4_cap5_yields_5_2 false "merged" "a.pdf" "b.pdf" [1, 2, 3] [4, 5, 6, 7] rfl rfl).1

/-- C4: when the loop reaches a source that reports itself encrypted and the
skip-encrypted policy is off, the run stops at once with exit code 2: the
chunks flushed while processing the preceding sources are exactly what
remains on disk, and nothing further — in particular not the current
accumulator — is written, whatever sources follow. -/
theorem encrypted_without_skip_exits_2 {α : Type} (m : Int) (stem : String)
    (pre post : List (Source α)) (src : Source α) (pgs : List α) (ie : Option String)
    (st : LoopState α)
    (hread : src.read = ReadResult.doc true pgs ie)
    (hpre : runLoop false (effMaxPages m) stem (initState α) pre = Sum.inl st) :
    (runMerge false m stem (pre ++ src :: post)).exitCode = 2 ∧
    (runMerge false m stem (pre ++ src :: post)).written = st.written := by
  have hne : pre ++ src :: post ≠ [] := by simp
  rw [runMerge_cons_eq false m stem _ hne]
  rw [runLoop_append, hpre]
  dsimp only
  have hstep : runLoop false (effMaxPages m) stem st (src :: post) =
      Sum.inr { written := st.written, stdoutLines := st.outLog,
                stderrLines := st.errLog ++
                  ["Encrypted: " ++ src.name ++ " (use --skip-encrypted to ignore)"],
                exitCode := 2 } := by
    simp only [runLoop, processSource, hread, if_true, Bool.false_eq_true, if_false]
  rw [hstep]
  exact ⟨rfl, rfl⟩

/-- Witness for C4: the first source flushes two one-page chunks
(`max_pages = 1`), the second is encrypted; the run exits 2 keeping exactly
those two chunks. -/
theorem encrypted_without_skip_exits_2_witness :
    (runMerge false 1 "merged"
        ([⟨"a.pdf", ReadResult.doc false [1, 2] none⟩] ++
          ⟨"enc.pdf", ReadResult.doc true [3] none⟩ :: [] ) : RunResult Nat).exitCode = 2 ∧
    (runMerge false 1 "merged"
        ([⟨"a.pdf", ReadResult.doc false [1, 2] none⟩] ++
          ⟨"enc.pdf", ReadResult.doc true [3] none⟩ :: [] ) : RunResult Nat).written =
      [(chunkName "merged" 1, [1]), (chunkName "merged" 2, [2])] :=
  encrypted_without_skip_exits_2 1 "merged"
    [⟨"a.pdf", ReadResult.doc false [1, 2] none⟩] []
    ⟨"enc.pdf", ReadResult.doc true [3] none⟩ [3] none
    ⟨[], 0, 1, 3, [(chunkName "merged" 1, [1]), (chunkName "merged" 2, [2])], [], []⟩
    rfl rfl

/-- C5 counterexample: source `a.pdf` yields page 7 and then its page
iterator raises (`some "EOF"`); with `max_pages = 1` that page has already
been flushed, so a page of the failing source appears in a written chunk —
the claim that a failing source contributes zero pages is false for
mid-iteration failures. -/
theorem iter_failure_page_reaches_chunk :
    ((runMerge false 1 "merged"
        [⟨"a.pdf", ReadResult.doc false [7] (some "EOF")⟩] : RunResult Nat).written =
      [(chunkName "merged" 1, [7])]) ∧
    (7 ∈ ((runMerge false 1 "merged"
        [⟨"a.pdf", ReadResult.doc false [7] (some "EOF")⟩] : RunResult Nat).written.flatMap
          fun c => c.2)) ∧
    ((runMerge false 1 "merged"
        [⟨"a.pdf", ReadResult.doc false [7] (some "EOF")⟩] : RunResult Nat).stderrLines =
      ["Skipping a.pdf: EOF", "Nothing merged."]) := by
  decide

/-- C5 (amended): a source whose open fails contributes zero pages — the
writer, the flushed chunks, and every other piece of loop state except the
error log are unchanged — and processing continues with the next source.
(When the page iteration fails mid-document instead, the pages yielded
before the failure remain in the output; see the counterexample.) -/
theorem open_failure_contributes_no_pages {α : Type} (se : Bool) (M : Nat) (stem : String)
    (st : LoopState α) (src : Source α) (e : String) (rest : List (Source α))
    (hread : src.read = ReadResult.failure e) :
    runLoop se M stem st (src :: rest) =
      runLoop se M stem
        { st with errLog := st.errLog ++ ["Skipping " ++ src.name ++ ": " ++ e] } rest := by
  simp only [runLoop, processSource, hread]

/-- Witness for C5 (amended) at a concrete failing source. -/
theorem open_failure_contributes_no_pages_witness :
    runLoop false 1000 "merged" (initState Nat)
        [⟨"bad.pdf", ReadResult.failure "not a pdf"⟩,
         ⟨"a.pdf", ReadResult.doc false [1] none⟩] =
      runLoop false 1000 "merged"
        { initState Nat with errLog := ["Skipping bad.pdf: not a pdf"] }
        [⟨"a.pdf", ReadResult.doc false [1] none⟩] :=
  open_failure_contributes_no_pages false 1000 "merged" (initState Nat)
    ⟨"bad.pdf", ReadResult.failure "not a pdf"⟩ "not a pdf"
    [⟨"a.pdf", ReadResult.doc false [1] none⟩] rfl

/-- C6 counterexample: the only source yields page 9 and then fails during
iteration; zero files merge and the run exits 3, yet a chunk holding page 9
has been written — "nothing is written" is false when a failure happens
mid-iteration after a flush (here the post-loop remainder flush, which runs
before the `added_files == 0` check). -/
theorem exit3_can_leave_chunks_on_disk :
    ((runMerge false 1000 "merged"
        [⟨"b.pdf", ReadResult.doc false [9] (some "bad xref")⟩] : RunResult Nat).exitCode = 3) ∧
    ((runMerge false 1000 "merged"
        [⟨"b.pdf", ReadResult.doc false [9] (some "bad xref")⟩] : RunResult Nat).written =
      [(chunkName "merged" 1, [9])]) := by
  decide

/-- C6 (amended): when every source fails at open — so it yields no pages
and zero files merge — the run exits with code 3 and no chunk is written.
(Zero merged files alone does not imply an empty disk: a mid-iteration
failure can leave flushed chunks behind; see the counterexample.) -/
theorem all_open_failures_exit3_nothing_written {α : Type} (se : Bool) (m : Int)
    (stem : String) (sources : List (Source α)) (hne : sources ≠ [])
    (hall : ∀ src ∈ sources, ∃ e, src.read = ReadResult.failure e) :
    (runMerge se m stem sources).exitCode = 3 ∧ (runMerge se m stem sources).written = [] := by
  rw [runMerge_cons_eq se m stem sources hne]
  obtain ⟨log, hl⟩ := runLoop_all_failures se (effMaxPages m) stem sources (initState α) hall
  rw [hl]
  exact ⟨rfl, rfl⟩

/-- Witness for C6 (amended): one unreadable source. -/
theorem all_open_failures_exit3_nothing_written_witness :
    ((runMerge false 1000 "merged"
        [⟨"x.pdf", ReadResult.failure "EOF marker not found"⟩] : RunResult Nat).exitCode = 3) ∧
    ((runMerge false 1000 "merged"
        [⟨"x.pdf", ReadResult.failure "EOF marker not found"⟩] : RunResult Nat).written = []) :=
  all_open_failures_exit3_nothing_written false 1000 "merged"
    [⟨"x.pdf", ReadResult.failure "EOF marker not found"⟩] (by simp)
    (by
      intro src h
      simp only [List.mem_singleton] at h
      subst h
      exact ⟨"EOF marker not found", rfl⟩)

/-- C7 counterexample: a single zero-page source merges successfully
(`added_files = 1`), yet no page was ever appended, so no chunk is written
and the run reaches the exit-code-4 branch — it is not unreachable. -/
theorem exit4_reachable_with_zero_page_source :
    ((runMerge false 1000 "merged"
        [⟨"empty.pdf", ReadResult.doc false ([] : List Nat) none⟩]).exitCode = 4) ∧
    ((runMerge false 1000 "merged"
        [⟨"empty.pdf", ReadResult.doc false ([] : List Nat) none⟩]).written = []) := by
  decide

/-- C7 (amended): if the loop completes and at least one successfully merged
source contributed at least one page, then at least one chunk is written and
the exit-code-4 branch is not taken.  (With only zero-page merged sources the
branch is reachable; see the counterexample.) -/
theorem merged_page_implies_output {α : Type} (se : Bool) (m : Int) (stem : String)
    (sources : List (Source α)) (st : LoopState α) (src : Source α) (pgs : List α)
    (hloop : runLoop se (effMaxPages m) stem (initState α) sources = Sum.inl st)
    (hmem : src ∈ sources) (hread : src.read = ReadResult.doc false pgs none)
    (hpgs : pgs ≠ []) :
    (runMerge se m stem sources).written ≠ [] ∧
    (runMerge se m stem sources).exitCode ≠ 4 := by
  have hne : sources ≠ [] := by
    intro h
    rw [h] at hmem
    exact absurd hmem (List.not_mem_nil src)
  obtain ⟨pre, post, rfl⟩ := List.append_of_mem hmem
  rw [runLoop_append] at hloop
  cases hpre : runLoop se (effMaxPages m) stem (initState α) pre with
  | inr r => rw [hpre] at hloop; simp at hloop
  | inl st1 =>
    rw [hpre] at hloop
    dsimp only at hloop
    simp only [runLoop] at hloop
    cases hp : processSource se (effMaxPages m) stem st1 src with
    | inr r => rw [hp] at hloop; simp at hloop
    | inl st2 =>
      rw [hp] at hloop
      dsimp only at hloop
      -- the merged source: its pages all went through addPage
      have hst2 : st2 = { pgs.foldl (addPage (effMaxPages m) stem) st1 with
          addedFiles := (pgs.foldl (addPage (effMaxPages m) stem) st1).addedFiles + 1 } := by
        unfold processSource at hp
        rw [hread] at hp
        simp only [Bool.false_eq_true, if_false, Sum.inl.injEq] at hp
        exact hp.symm
      have hout2 : hasOut st2 := by
        rw [hst2]
        have := foldl_addPage_hasOut_of_ne (effMaxPages m) stem pgs st1 hpgs
        unfold hasOut at this ⊢
        exact this
      have hsync1 : wSync st1 := runLoop_wSync se (effMaxPages m) stem pre (initState α) st1 rfl hpre
      have hsync2 : wSync st2 := by
        rw [hst2]
        have := foldl_addPage_wSync (effMaxPages m) stem pgs st1 hsync1
        unfold wSync at this ⊢
        exact this
      have hadded2 : 1 ≤ st2.addedFiles := by
        rw [hst2]
        exact Nat.le_add_left 1 _
      have hout : hasOut st := runLoop_hasOut se (effMaxPages m) stem post st2 st hout2 hloop
      have hsync : wSync st := runLoop_wSync se (effMaxPages m) stem post st2 st hsync2 hloop
      have hadded : 1 ≤ st.addedFiles :=
        Nat.le_trans hadded2 (runLoop_added_mono se (effMaxPages m) stem post st2 st hloop)
      rw [runMerge_cons_eq se m stem _ hne]
      rw [runLoop_append, hpre]
      dsimp only
      simp only [runLoop, hp]
      rw [hloop]
      dsimp only
      -- analyze finishRun
      unfold wSync at hsync
      unfold finishRun
      dsimp only
      by_cases hw : 0 < st.pagesInWriter
      · have hw1 : st.written ++ [(chunkName stem st.partIdx, st.writer)] ≠ [] := by simp
        simp only [if_pos hw]
        have hnz : ¬ st.addedFiles = 0 := by omega
        simp only [hnz, if_false]
        have hemp : (st.written ++ [(chunkName stem st.partIdx, st.writer)]).isEmpty = false := by
          simp
        simp only [hemp, Bool.false_eq_true, if_false]
        exact ⟨by simp, by simp⟩
      · have hwempty : st.writer = [] := by
          rw [← List.length_eq_zero]
          omega
        have hwr : st.written ≠ [] := by
          unfold hasOut at hout
          rcases hout with h | h
          · exact h
          · exact absurd hwempty h
        simp only [if_neg hw]
        have hnz : ¬ st.addedFiles = 0 := by omega
        simp only [hnz, if_false]
        have hemp : st.written.isEmpty = false := by
          simpa [List.isEmpty_iff] using hwr
        simp only [hemp, Bool.false_eq_true, if_false]
        exact ⟨hwr, by simp⟩

/-- Witness for C7 (amended): one good one-page source. -/
theorem merged_page_implies_output_witness :
    ((runMerge false 1000 "merged"
        [⟨"a.pdf", ReadResult.doc false [5] none⟩] : RunResult Nat).written ≠ []) ∧
    ((runMerge false 1000 "merged"
        [⟨"a.pdf", ReadResult.doc false [5] none⟩] : RunResult Nat).exitCode ≠ 4) :=
  merged_page_implies_output false 1000 "merged"
    [⟨"a.pdf", ReadResult.doc false [5] none⟩]
    ⟨[5], 1, 1, 1, [], [], []⟩
    ⟨"a.pdf", ReadResult.doc false [5] none⟩ [5]
    rfl (List.mem_singleton.mpr rfl) rfl (by simp)

/-- C8: merge_pdfs.py line 70 prints the encrypted-skip diagnostic without
`file=sys.stderr`, so under the skip-encrypted policy the message
`"Skipping encrypted: enc.pdf"` lands on stdout, not stderr — stdout does
not carry only the merged-file count and chunk paths.  (Unreadable-source
diagnostics and the encrypted-abort message do go to stderr, as the other
conjuncts show at this input.) -/
theorem encrypted_skip_diagnostic_on_stdout :
    ("Skipping encrypted: enc.pdf" ∈ (runMerge true 1000 "merged"
        [⟨"enc.pdf", ReadResult.doc true [] none⟩,
         ⟨"bad.pdf", ReadResult.failure "broken"⟩,
         ⟨"a.pdf", ReadResult.doc false [1] none⟩] : RunResult Nat).stdoutLines) ∧
    ("Skipping encrypted: enc.pdf" ∉ (runMerge true 1000 "merged"
        [⟨"enc.pdf", ReadResult.doc true [] none⟩,
         ⟨"bad.pdf", ReadResult.failure "broken"⟩,
         ⟨"a.pdf", ReadResult.doc false [1] none⟩] : RunResult Nat).stderrLines) ∧
    ((runMerge true 1000 "merged"
        [⟨"enc.pdf", ReadResult.doc true [] none⟩,
         ⟨"bad.pdf", ReadResult.failure "broken"⟩,
         ⟨"a.pdf", ReadResult.doc false [1] none⟩] : RunResult Nat).stderrLines =
      ["Skipping bad.pdf: broken"]) ∧
    ((runMerge true 1000 "merged"
        [⟨"enc.pdf", ReadResult.doc true [] none⟩,
         ⟨"bad.pdf", ReadResult.failure "broken"⟩,
         ⟨"a.pdf", ReadResult.doc false [1] none⟩] : RunResult Nat).stdoutLines =
      ["Skipping encrypted: enc.pdf",
       "Merged 1 file(s) into 1 part(s):",
       "   merged - Part 1.pdf"]) := by
  decide

/-- C9: in every run that exits 0, at least one chunk was written, every
chunk except possibly the last holds exactly `max(1, max_pages)` pages,
every chunk holds between 1 and that many pages (so in particular the last
one does), and the chunk names are `"<stem> - Part 1.pdf"`,
`"<stem> - Part 2.pdf"`, … consecutively in the order written. -/
theorem successful_run_chunk_shape {α : Type} (se : Bool) (m : Int) (stem : String)
    (sources : List (Source α))
    (h0 : (runMerge se m stem sources).exitCode = 0) :
    (runMerge se m stem sources).written ≠ [] ∧
    (∀ c ∈ (runMerge se m stem sources).written.dropLast, c.2.length = effMaxPages m) ∧
    (∀ c ∈ (runMerge se m stem sources).written,
      1 ≤ c.2.length ∧ c.2.length ≤ effMaxPages m) ∧
    (runMerge se m stem sources).written.map Prod.fst =
      (List.range (runMerge se m stem sources).written.length).map
        (fun i => chunkName stem (i + 1)) := by
  have hM : 1 ≤ effMaxPages m := by
    unfold effMaxPages
    have := le_max_left (1 : Int) m
    omega
  cases sources with
  | nil => simp [runMerge] at h0
  | cons s rest =>
    rw [runMerge_cons_eq se m stem _ (by simp)] at h0 ⊢
    cases hl : runLoop se (effMaxPages m) stem (initState α) (s :: rest) with
    | inr r =>
      rw [hl] at h0
      dsimp only at h0
      have h2 := runLoop_inr_exit2 se (effMaxPages m) stem (s :: rest) (initState α) r hl
      rw [h2] at h0
      exact absurd h0 (by decide)
    | inl st =>
      rw [hl] at h0
      dsimp only at h0 ⊢
      obtain ⟨h1, h2, h3, h4, h5⟩ :=
        runLoop_chunkInv se (effMaxPages m) stem hM (s :: rest) (initState α) st
          (chunkInv_init (effMaxPages m) stem hM) hl
      unfold finishRun at h0 ⊢
      dsimp only at h0 ⊢
      by_cases hw : 0 < st.pagesInWriter
      · simp only [if_pos hw] at h0 ⊢
        by_cases ha : st.addedFiles = 0
        · simp [ha] at h0
        · simp only [if_neg ha] at h0 ⊢
          have hemp : (st.written ++ [(chunkName stem st.partIdx, st.writer)]).isEmpty
              = false := by simp
          simp only [hemp, Bool.false_eq_true, if_false] at h0 ⊢
          refine ⟨by simp, ?_, ?_, ?_⟩
          · intro c hc
            rw [List.dropLast_concat] at hc
            exact h4 c hc
          · intro c hc
            rw [List.mem_append] at hc
            rcases hc with hc | hc
            · have := h4 c hc
              omega
            · rw [List.mem_singleton] at hc
              rw [hc]
              dsimp only
              omega
          · simp only [List.map_append, List.length_append, List.map_cons, List.map_nil,
              List.length_cons, List.length_nil]
            rw [h5, h3]
            simp [List.range_succ]
      · simp only [if_neg hw] at h0 ⊢
        have hwempty : st.writer = [] := by
          rw [← List.length_eq_zero]
          omega
        by_cases ha : st.addedFiles = 0
        · simp [ha] at h0
        · simp only [if_neg ha] at h0 ⊢
          cases hemp : st.written.isEmpty with
          | true => rw [hemp] at h0; simp at h0
          | false =>
            rw [hemp] at h0
            simp only [Bool.false_eq_true, if_false] at h0 ⊢
            have hne2 : st.written ≠ [] := by
              intro hh
              rw [hh] at hemp
              simp at hemp
            refine ⟨hne2, ?_, ?_, h5⟩
            · intro c hc
              exact h4 c ((List.dropLast_prefix st.written).subset hc)
            · intro c hc
              have := h4 c hc
              omega

/-- Witness for C9: one three-page source with `max_pages = 2` produces
chunks of 2 and 1 pages named Part 1 and Part 2. -/
theorem successful_run_chunk_shape_witness :
    ((runMerge false 2 "merged"
        [⟨"a.pdf", ReadResult.doc false [1, 2, 3] none⟩] : RunResult Nat).written ≠ []) ∧
    (∀ c ∈ (runMerge false 2 "merged"
        [⟨"a.pdf", ReadResult.doc false [1, 2, 3] none⟩] : RunResult Nat).written.dropLast,
      c.2.length = effMaxPages 2) ∧
    (∀ c ∈ (runMerge false 2 "merged"
        [⟨"a.pdf", ReadResult.doc false [1, 2, 3] none⟩] : RunResult Nat).written,
      1 ≤ c.2.length ∧ c.2.length ≤ effMaxPages 2) ∧
    ((runMerge false 2 "merged"
        [⟨"a.pdf", ReadResult.doc false [1, 2, 3] none⟩] : RunResult Nat).written.map Prod.fst =
      (List.range (runMerge false 2 "merged"
        [⟨"a.pdf", ReadResult.doc false [1, 2, 3] none⟩] : RunResult Nat).written.length).map
        (fun i => chunkName "merged" (i + 1))) :=
  successful_run_chunk_shape false 2 "merged"
    [⟨"a.pdf", ReadResult.doc false [1, 2, 3] none⟩] (by decide)
